import Mathlib

/-!
# pxlcensor — verification of the job queue engine, capability signer and atomic file store

Shallow embedding of the pxlcensor repository core:

* the PostgreSQL schema (`db/001_init.sql`): tables `images`, `jobs`, `events`,
  the `jobs_notify_queued` trigger (AFTER INSERT, WHEN NEW.status = 'queued');
* the PL/pgSQL queue functions (`claim_jobs`, `complete_job`, `fail_job`);
* the API enqueue endpoint (`api/server.js`, POST /images/:id/process);
* the media service HMAC signer / verifier and the PUT handlers
  (`media/server.js`).

Timestamps are modelled as integers (seconds for the queue timeline,
milliseconds for the HMAC expiry timeline, matching `Date.now()`).
UUIDs are modelled as naturals.
-/

/-- Work-item status: `jobs.status` CHECK constraint. -/
inductive JobStatus
  | queued
  | processing
  | done
  | failed
deriving DecidableEq, Repr

/-- Subject status: `images.status` CHECK constraint. -/
inductive ImageStatus
  | uploaded
  | queued
  | processing
  | done
  | failed
deriving DecidableEq, Repr

/-- A row of the `jobs` table (columns relevant to the queue engine). -/
structure Job where
  id : Nat
  image_id : Nat
  kind : String
  status : JobStatus
  run_at : Int
  attempts : Int
  claimed_by : Option String
  claimed_at : Option Int
  dedupe_key : Option String
  error_log : Option String
  processing_options : String
deriving DecidableEq, Repr

/-- A row of the `images` table (columns relevant to the claims). -/
structure Image where
  id : Nat
  original_path : String
  processed_path : Option String
  sha256 : String
  status : ImageStatus
  processing_options : String
deriving DecidableEq, Repr

/-- A row of the `events` audit table.  The `image_id` column is NOT NULL,
which the insert helper below enforces. -/
structure Event where
  image_id : Nat
  type : String
  data : String
deriving DecidableEq, Repr

/-- Errors raised by the modelled SQL layer. -/
inductive SqlError
  | notNullViolation (column : String)
  | ambiguousColumn (name : String)
deriving DecidableEq, Repr

/-- The durable store: the three tables, the `jobs_channel` notifications
published so far (payload: job id, image id, kind — from `notify_job_queued`),
and the BIGSERIAL cursor for `jobs.id`. -/
structure DB where
  jobs : List Job
  images : List Image
  events : List Event
  notifications : List (Nat × Nat × String)
  nextJobId : Nat
deriving DecidableEq, Repr

/-- `INSERT INTO events (image_id, type, data)`.  `events.image_id` is declared
NOT NULL in `001_init.sql`, so inserting a NULL reference raises. -/
def insertEvent (db : DB) (image_id : Option Nat) (ty : String) (data : String) :
    Except SqlError DB :=
  match image_id with
  | none => .error (.notNullViolation "image_id")
  | some iid => .ok { db with events := db.events ++ [⟨iid, ty, data⟩] }

/-! ## claim_jobs

```sql
UPDATE jobs SET status = 'processing', claimed_by = worker_id,
    claimed_at = NOW(), attempts = jobs.attempts + 1
WHERE jobs.id IN (
  SELECT jobs.id FROM jobs
  WHERE jobs.status = 'queued' AND jobs.run_at <= NOW()
  ORDER BY jobs.run_at
  FOR UPDATE SKIP LOCKED
  LIMIT batch_size)
RETURNING jobs.id, jobs.image_id, jobs.kind, jobs.attempts;
```

The `ORDER BY jobs.run_at` clause has no tie-break column, so among rows with
equal `run_at` the database may return any order; the selection is therefore
modelled as a relation (`IsClaimSelection`): some permutation of the eligible
rows that is sorted by `run_at`, truncated to `batch_size`.  A deterministic
refinement (`claim_jobs`, stable insertion sort) is provided and proved to
satisfy the relation. -/

/-- The WHERE clause of the claim subselect: `status = 'queued' AND run_at <= NOW()`. -/
def jobEligible (now : Int) (j : Job) : Bool :=
  decide (j.status = JobStatus.queued) && decide (j.run_at ≤ now)

/-- The SET clause of `claim_jobs` applied to one selected row. -/
def claimUpdate (w : String) (now : Int) (j : Job) : Job :=
  { j with status := .processing, claimed_by := some w, claimed_at := some now,
           attempts := j.attempts + 1 }

/-- The row type returned by `claim_jobs` (RETURNS TABLE clause). -/
structure ClaimedRow where
  id : Nat
  image_id : Nat
  kind : String
  attempts : Int
deriving DecidableEq, Repr

/-- RETURNING jobs.id, jobs.image_id, jobs.kind, jobs.attempts (post-update values). -/
def returnRow (j : Job) : ClaimedRow :=
  ⟨j.id, j.image_id, j.kind, j.attempts⟩

/-- Sortedness by the single ORDER BY key `run_at`. -/
def SortedRunAt (l : List Job) : Prop :=
  l.Pairwise (fun a b => a.run_at ≤ b.run_at)

instance (l : List Job) : Decidable (SortedRunAt l) := by
  unfold SortedRunAt; infer_instance

/-- The set of outcomes `ORDER BY jobs.run_at ... LIMIT batch_size` may
produce over `table`: a `run_at`-sorted permutation of the eligible rows,
truncated to `b`.  Tie order among equal `run_at` values is unconstrained,
exactly as in PostgreSQL. -/
def IsClaimSelection (now : Int) (b : Nat) (table sel : List Job) : Prop :=
  ∃ ord : List Job,
    List.Perm ord (table.filter (jobEligible now)) ∧ SortedRunAt ord ∧ sel = ord.take b

/-- The UPDATE of `claim_jobs` applied to the selected rows (matched by id). -/
def applyClaim (sel : List Job) (w : String) (now : Int) (db : DB) : DB :=
  { db with jobs := db.jobs.map (fun j =>
      if (sel.map Job.id).contains j.id then claimUpdate w now j else j) }

/-- The rows returned by `claim_jobs` for selection `sel` (post-update values). -/
def claimReturns (sel : List Job) (w : String) (now : Int) : List ClaimedRow :=
  sel.map (fun j => returnRow (claimUpdate w now j))

/-- Deterministic refinement of the claim selection: stable insertion sort by
`run_at` (one of the orders PostgreSQL may produce). -/
def claimSelectRun (now : Int) (b : Nat) (table : List Job) : List Job :=
  (List.insertionSort (fun a c => a.run_at ≤ c.run_at) (table.filter (jobEligible now))).take b

/-- Executable `claim_jobs`: selection by `claimSelectRun`, then the UPDATE and
RETURNING clauses. -/
def claim_jobs (now : Int) (worker_id : String) (batch_size : Nat) (db : DB) :
    List ClaimedRow × DB :=
  let sel := claimSelectRun now batch_size db.jobs
  (claimReturns sel worker_id now, applyClaim sel worker_id now db)

instance : IsTotal Job (fun a b => a.run_at ≤ b.run_at) :=
  ⟨fun a b => Int.le_total a.run_at b.run_at⟩

instance : IsTrans Job (fun a b => a.run_at ≤ b.run_at) :=
  ⟨fun _ _ _ h1 h2 => le_trans h1 h2⟩

theorem claimSelectRun_isSelection (now : Int) (b : Nat) (table : List Job) :
    IsClaimSelection now b table (claimSelectRun now b table) := by
  refine ⟨List.insertionSort (fun a c => a.run_at ≤ c.run_at) (table.filter (jobEligible now)),
    List.perm_insertionSort _ _, ?_, rfl⟩
  exact List.sorted_insertionSort _ _

/-! ## complete_job

```sql
UPDATE jobs SET status = 'done' WHERE id = job_id RETURNING image_id INTO v_image_id;
IF v_image_id IS NULL THEN RETURN FALSE; END IF;
IF processed_path IS NOT NULL THEN
  UPDATE images SET status = 'done', processed_path = processed_path WHERE id = v_image_id;
END IF;
INSERT INTO events ... 'job_completed' ...; RETURN TRUE;
```

In the images UPDATE the right-hand `processed_path` is ambiguous between the
function parameter and the `images.processed_path` column.  PL/pgSQL's default
`variable_conflict = error` setting raises SQLSTATE 42702 ("column reference
is ambiguous") when that statement is reached, i.e. whenever the function is
called with a non-NULL `processed_path` on an existing job; the raise aborts
the transaction, so no update is kept.  The statement is compiled lazily, so
calls with a NULL path never reach it and succeed. -/

def completeEventData (job_id : Nat) (processed_path : Option String) : String :=
  "job_id:" ++ toString job_id ++ ",processed_path:" ++ toString processed_path

def complete_job (db : DB) (job_id : Nat) (processed_path : Option String) :
    Except SqlError (Bool × DB) :=
  -- UPDATE jobs SET status = 'done' WHERE id = job_id RETURNING image_id
  match db.jobs.find? (fun j => j.id == job_id) with
  | none => .ok (false, db)
  | some job =>
    let db1 : DB :=
      { db with jobs := db.jobs.map (fun j =>
          if j.id == job_id then { j with status := .done } else j) }
    match processed_path with
    | some _ =>
      -- ambiguous `processed_path` reference: PL/pgSQL raises 42702 here
      .error (.ambiguousColumn "processed_path")
    | none =>
      (insertEvent db1 (some job.image_id) "job_completed"
        (completeEventData job_id processed_path)).map (fun d => (true, d))

/-! ## fail_job

```sql
SELECT attempts, image_id INTO v_attempts, v_image_id FROM jobs WHERE id = job_id;
IF v_attempts >= max_attempts THEN
  UPDATE jobs SET status = 'failed', error_log = error_message WHERE id = job_id;
  UPDATE images SET status = 'failed' WHERE id = v_image_id;
  v_status := 'failed';
ELSE
  UPDATE jobs SET status = 'queued', run_at = NOW() + (v_attempts * interval '10 seconds'),
      error_log = error_message, claimed_by = NULL, claimed_at = NULL
  WHERE id = job_id;
  v_status := 'retry';
END IF;
INSERT INTO events (image_id, type, data) VALUES (v_image_id, 'job_' || v_status, ...);
RETURN v_status;
```

When no row matches `job_id`, `v_attempts` and `v_image_id` are NULL; the SQL
comparison `NULL >= max_attempts` is not true, so the ELSE branch runs (its
UPDATE matches no row), and the events INSERT then violates the NOT NULL
constraint on `events.image_id`. -/

def backoffRunAt (now a : Int) : Int :=
  now + a * 10

def jobFailUpd (msg : String) (j : Job) : Job :=
  { j with status := .failed, error_log := some msg }

def jobRetryUpd (now a : Int) (msg : String) (j : Job) : Job :=
  { j with status := .queued, run_at := backoffRunAt now a, error_log := some msg,
           claimed_by := none, claimed_at := none }

def updJobsWhere (job_id : Nat) (f : Job → Job) (l : List Job) : List Job :=
  l.map (fun j => if j.id == job_id then f j else j)

def imagesFailUpd (v_image_id : Option Nat) (l : List Image) : List Image :=
  l.map (fun i => if some i.id == v_image_id then { i with status := ImageStatus.failed } else i)

def failEventData (job_id : Nat) (v_attempts : Option Int) (msg : String) : String :=
  "job_id:" ++ toString job_id ++ ",attempts:" ++ toString v_attempts ++ ",error:" ++ msg

def fail_job (db : DB) (now : Int) (job_id : Nat) (error_message : String)
    (max_attempts : Int := 3) : Except SqlError (String × DB) :=
  let row := db.jobs.find? (fun j => j.id == job_id)
  let v_attempts : Option Int := row.map Job.attempts
  let v_image_id : Option Nat := row.map Job.image_id
  if (v_attempts.map (fun a => decide (a ≥ max_attempts))).getD false then
    let db1 : DB := { db with jobs := updJobsWhere job_id (jobFailUpd error_message) db.jobs }
    let db2 : DB := { db1 with images := imagesFailUpd v_image_id db1.images }
    (insertEvent db2 v_image_id "job_failed" (failEventData job_id v_attempts error_message)).map
      (fun d => ("failed", d))
  else
    let db1 : DB :=
      { db with jobs := updJobsWhere job_id (jobRetryUpd now (v_attempts.getD 0) error_message) db.jobs }
    (insertEvent db1 v_image_id "job_retry" (failEventData job_id v_attempts error_message)).map
      (fun d => ("retry", d))

/-! ## POST /images/:id/process (the Enqueue operation, api/server.js)

Order of checks in the handler: image lookup (404), status guard (409 for
queued/processing, 409 for done), dedupe-key lookup (returns the existing job
id with a duplicate flag), then INSERT of the job (the AFTER INSERT trigger
`jobs_notify_queued` publishes on `jobs_channel` because the new row has
status `queued`), UPDATE of the image status, and the audit event. -/

inductive HttpError
  | notFound (msg : String)
  | conflict (msg : String)
deriving DecidableEq, Repr

structure EnqueueResult where
  job_id : Nat
  duplicate : Bool
deriving DecidableEq, Repr

/-- INSERT INTO jobs (image_id, kind, status, dedupe_key, processing_options)
VALUES (..., 'queued', ...), plus the `jobs_notify_queued` trigger
(AFTER INSERT, WHEN NEW.status = 'queued' → pg_notify on `jobs_channel`).
Schema defaults: `run_at = NOW()`, `attempts = 0`, claimant fields NULL. -/
def insertJob (db : DB) (now : Int) (image_id : Nat) (kind : String)
    (dedupe_key : Option String) (opts : String) : Nat × DB :=
  let j : Job :=
    { id := db.nextJobId, image_id := image_id, kind := kind, status := .queued,
      run_at := now, attempts := 0, claimed_by := none, claimed_at := none,
      dedupe_key := dedupe_key, error_log := none, processing_options := opts }
  (j.id,
    { db with
        jobs := db.jobs ++ [j],
        nextJobId := db.nextJobId + 1,
        notifications :=
          if j.status = JobStatus.queued then
            db.notifications ++ [(j.id, j.image_id, j.kind)]
          else db.notifications })

def enqueueEventData (job_id : Nat) (pipeline : String) : String :=
  "job_id:" ++ toString job_id ++ ",pipeline:" ++ pipeline

def processImage (db : DB) (now : Int) (imageId : Nat)
    (pipeline : String := "deface_boxes") : Except HttpError (EnqueueResult × DB) :=
  match db.images.find? (fun i => i.id == imageId) with
  | none => .error (.notFound "Image not found")
  | some image =>
    if image.status = ImageStatus.processing ∨ image.status = ImageStatus.queued then
      .error (.conflict "Already processing")
    else if image.status = ImageStatus.done then
      .error (.conflict "Already processed")
    else
      let dedupeKey := image.sha256 ++ ":" ++ pipeline
      match db.jobs.find? (fun j => j.dedupe_key == some dedupeKey) with
      | some job => .ok ({ job_id := job.id, duplicate := true }, db)
      | none =>
        let r := insertJob db now imageId pipeline (some dedupeKey) image.processing_options
        let db2 : DB :=
          { r.2 with images := r.2.images.map (fun i =>
              if i.id == imageId then { i with status := .queued } else i) }
        let db3 : DB :=
          { db2 with events := db2.events ++ [⟨imageId, "queued", enqueueEventData r.1 pipeline⟩] }
        .ok ({ job_id := r.1, duplicate := false }, db3)

/-! ## Sequential operational semantics of the queue engine

A step is one committed queue operation: an enqueue (POST /images/:id/process),
a claim (`claim_jobs`, any PostgreSQL-permitted selection), a completion or a
failure (committed runs only: an aborted transaction leaves no state change).
Image creation is the upload CRUD surface, outside the queue engine; initial
states therefore carry an arbitrary image table and empty queue tables. -/

inductive Step : DB → DB → Prop
  | enqueue (db : DB) (now : Int) (imageId : Nat) (pipeline : String) (r : EnqueueResult)
      (db' : DB) (h : processImage db now imageId pipeline = .ok (r, db')) : Step db db'
  | claim (db : DB) (now : Int) (w : String) (b : Nat) (sel : List Job)
      (hsel : IsClaimSelection now b db.jobs sel) : Step db (applyClaim sel w now db)
  | complete (db : DB) (job_id : Nat) (p : Option String) (ok : Bool) (db' : DB)
      (h : complete_job db job_id p = .ok (ok, db')) : Step db db'
  | fail (db : DB) (now : Int) (job_id : Nat) (msg : String) (m : Int) (st : String) (db' : DB)
      (h : fail_job db now job_id msg m = .ok (st, db')) : Step db db'

/-- An initial state: subjects already uploaded, queue empty. -/
def initDB (images : List Image) : DB :=
  { jobs := [], images := images, events := [], notifications := [], nextJobId := 1 }

/-- Reachability of a store state from an initial state. -/
def Reach (images : List Image) (db : DB) : Prop :=
  Relation.ReflTransGen Step (initDB images) db

/-! ## Concurrent claim model

`claim_jobs` runs `FOR UPDATE SKIP LOCKED` inside the claiming transaction:
the single UPDATE statement locks the selected rows and rewrites them before
any other claimer can select them, and the locks are released at commit.  A
concurrent execution is modelled as an arbitrary interleaving of two kinds of
atomic events: `exec` — one claimer runs the claim statement, which selects
only rows not currently locked by an uncommitted claim (SKIP LOCKED), locks
them and updates them in place — and `commit`, which releases a claimer's
locks. -/

structure CState where
  db : DB
  locked : List (String × Nat)
  results : List (String × List Nat)
deriving Repr

def lockedIds (locked : List (String × Nat)) : List Nat :=
  locked.map Prod.snd

/-- Rows visible to a claim selection: rows not row-locked by another
uncommitted claim statement (SKIP LOCKED). -/
def unlockedJobs (s : CState) : List Job :=
  s.db.jobs.filter (fun j => !(lockedIds s.locked).contains j.id)

inductive CStep (now : Int) : CState → CState → Prop
  | exec (s : CState) (w : String) (b : Nat) (sel : List Job)
      (hsel : IsClaimSelection now b (unlockedJobs s) sel) :
      CStep now s
        ⟨applyClaim sel w now s.db,
         s.locked ++ sel.map (fun j => (w, j.id)),
         s.results ++ [(w, sel.map Job.id)]⟩
  | commit (s : CState) (w : String) :
      CStep now s ⟨s.db, s.locked.filter (fun p => p.1 != w), s.results⟩

def CReach (now : Int) (s0 s : CState) : Prop :=
  Relation.ReflTransGen (CStep now) s0 s

/-- How many completed claim calls returned the job id `i`. -/
def claimCount (results : List (String × List Nat)) (i : Nat) : Nat :=
  ((results.map Prod.snd).flatten).count i

/-! ## Capability signer (media/server.js)

`POST /sign` computes `signature = HMAC-SHA256(secret, METHOD:PATH:EXPIRES)`
with `expires = Date.now() + expiresIn * 1000`; the `verifyHmac` hook rejects
when `Date.now() > expires` and otherwise recomputes the signature over the
request's method and path and compares.  The HMAC primitive itself is external
library code (node:crypto); it is abstracted as a function
`hmac : secret → message → digest`, and the collision-freedom the scheme
relies on is an explicit hypothesis of the theorems. -/

def hmacInput (method path : String) (expires : Int) : String :=
  method ++ ":" ++ path ++ ":" ++ toString expires

structure SignResult where
  sigHeader : String
  expHeader : Int
deriving DecidableEq, Repr

/-- POST /sign body `{method, path, expiresIn = 300}` (media/server.js). -/
def signEndpoint (hmac : String → String → String) (secret : String)
    (method path : String) (now : Int) (expiresIn : Int := 300) : SignResult :=
  let expires := now + expiresIn * 1000
  { sigHeader := hmac secret (hmacInput method path expires), expHeader := expires }

/-- The `verifyHmac` preHandler: expiry check, then recompute-and-compare.
`true` means the request is allowed through. -/
def verifyHmac (hmac : String → String → String) (secret : String)
    (method path signature : String) (expires now : Int) : Bool :=
  if now > expires then false
  else signature == hmac secret (hmacInput method path expires)

def colonFree (s : String) : Prop :=
  ':' ∉ s.data

instance (s : String) : Decidable (colonFree s) := by
  unfold colonFree; infer_instance

/-! ## Atomic file store (media/server.js PUT handlers)

Both `PUT /originals/*` and `PUT /processed/*` run: ensure the parent
directory exists, write the body to `fullPath + ".tmp"`, rename the temp file
over `fullPath`.  The filesystem is an association list path → bytes; the
non-atomic `fs.writeFile` is refined into a truncate followed by one append
per byte, while `fs.rename` is a single atomic operation, so every crash or
concurrent-read point is a prefix of the operation list. -/

inductive FsOp
  | mkdirp (d : String)
  | truncate (p : String)
  | append (p : String) (b : Nat)
  | rename (src dst : String)
deriving DecidableEq, Repr

def FS := List (String × List Nat)

def fsGet (fs : FS) (p : String) : Option (List Nat) :=
  (fs.find? (fun e => e.1 == p)).map Prod.snd

def fsSet (fs : FS) (p : String) (v : List Nat) : FS :=
  (p, v) :: fs.filter (fun e => e.1 != p)

def fsDel (fs : FS) (p : String) : FS :=
  fs.filter (fun e => e.1 != p)

def applyOp (fs : FS) : FsOp → FS
  | .mkdirp _ => fs
  | .truncate p => fsSet fs p []
  | .append p b => fsSet fs p ((fsGet fs p).getD [] ++ [b])
  | .rename src dst =>
    match fsGet fs src with
    | none => fs
    | some v => fsSet (fsDel fs src) dst v

def applyOps (fs : FS) (ops : List FsOp) : FS :=
  ops.foldl applyOp fs

/-- `path.dirname`: everything before the last slash. -/
def dirname (p : String) : String :=
  ⟨(((p.data.reverse).dropWhile (fun c => c ≠ '/')).drop 1).reverse⟩

/-- The filesystem operations performed by one PUT handler body. -/
def putOps (fullPath : String) (body : List Nat) : List FsOp :=
  FsOp.mkdirp (dirname fullPath) :: FsOp.truncate (fullPath ++ ".tmp") ::
    (body.map (FsOp.append (fullPath ++ ".tmp")) ++ [FsOp.rename (fullPath ++ ".tmp") fullPath])

/-- PUT /originals/* : final path `MEDIA_ROOT/originals/<file>`. -/
def putOriginals (mediaRoot filepath : String) (body : List Nat) : List FsOp :=
  putOps (mediaRoot ++ "/originals/" ++ filepath) body

/-- PUT /processed/* : final path `MEDIA_ROOT/processed/<file>`. -/
def putProcessed (mediaRoot filepath : String) (body : List Nat) : List FsOp :=
  putOps (mediaRoot ++ "/processed/" ++ filepath) body

/-- The atomic-write contract for one final path: at every prefix of the
trace a reader of `fullPath` sees the old content or the complete new body,
the completed trace leaves the full body at `fullPath`, and the temporary is
a sibling (`fullPath ++ ".tmp"`, same parent directory). -/
def AtomicPutOk (fullPath : String) (body : List Nat) : Prop :=
  (∀ fs : FS, ∀ k : Nat,
      fsGet (applyOps fs ((putOps fullPath body).take k)) fullPath = fsGet fs fullPath ∨
      fsGet (applyOps fs ((putOps fullPath body).take k)) fullPath = some body) ∧
  (∀ fs : FS, fsGet (applyOps fs (putOps fullPath body)) fullPath = some body) ∧
  dirname (fullPath ++ ".tmp") = dirname fullPath

/-! ## Shared concrete fixtures for witnesses and counterexamples -/

def exImage : Image :=
  { id := 7, original_path := "originals/2026/10/a.jpg", processed_path := none,
    sha256 := "h1", status := .uploaded, processing_options := "opts" }

def exJobQueued : Job :=
  { id := 1, image_id := 7, kind := "deface_boxes", status := .queued, run_at := 0,
    attempts := 0, claimed_by := none, claimed_at := none, dedupe_key := some "h1:deface_boxes",
    error_log := none, processing_options := "opts" }

def exJobProcessing : Job :=
  { exJobQueued with status := .processing, attempts := 1, claimed_by := some "w1",
                     claimed_at := some 0 }

/-! ## C10: fail_job on a missing work item raises instead of returning -/

/-- **C10.** For a work item id absent from `jobs`, `complete_job` tolerantly
returns false with the store unchanged, while `fail_job` falls into the retry
branch (the NULL attempts comparison is not true), updates no rows, and then
violates the NOT NULL constraint on `events.image_id`, raising an error
instead of returning a retry/failed status. -/
theorem fail_job_missing_raises (db : DB) (now : Int) (jid : Nat) (msg : String)
    (p : Option String) (habs : ∀ j ∈ db.jobs, j.id ≠ jid) :
    fail_job db now jid msg 3 = .error (.notNullViolation "image_id") ∧
    complete_job db jid p = .ok (false, db) := by
  have hf : db.jobs.find? (fun j => j.id == jid) = none :=
    List.find?_eq_none.mpr (fun j hj => by simpa using habs j hj)
  constructor
  · simp [fail_job, hf, insertEvent, Except.map]
  · simp [complete_job, hf]

theorem fail_job_missing_raises_witness :
    fail_job (initDB [exImage]) 0 42 "boom" 3 = .error (.notNullViolation "image_id") ∧
    complete_job (initDB [exImage]) 42 (some "p") = .ok (false, initDB [exImage]) :=
  fail_job_missing_raises (initDB [exImage]) 0 42 "boom" (some "p") (by decide)

/-! ## C4: fail_job branch behaviour for an existing work item -/

/-- **C4.** For an existing work item, `fail_job` with `max_attempts = 3`
terminally fails the item and its subject when `attempts >= 3` (recording the
error and appending exactly one `job_failed` event) and otherwise re-queues it
with `run_at = now + attempts * 10` seconds, clearing the claimant fields,
recording the error and appending exactly one `job_retry` event; the backoff
target never precedes a `run_at` that was due, and is strictly later for
strictly higher attempt counts. -/
theorem fail_job_branches (db : DB) (now : Int) (jid : Nat) (msg : String) (j : Job)
    (hfind : db.jobs.find? (fun x => x.id == jid) = some j) :
    (3 ≤ j.attempts →
      fail_job db now jid msg 3 =
        .ok ("failed",
          { db with
              jobs := updJobsWhere jid (jobFailUpd msg) db.jobs,
              images := imagesFailUpd (some j.image_id) db.images,
              events := db.events ++ [⟨j.image_id, "job_failed", failEventData jid (some j.attempts) msg⟩] })) ∧
    (j.attempts < 3 →
      fail_job db now jid msg 3 =
        .ok ("retry",
          { db with
              jobs := updJobsWhere jid (jobRetryUpd now j.attempts msg) db.jobs,
              events := db.events ++ [⟨j.image_id, "job_retry", failEventData jid (some j.attempts) msg⟩] })) ∧
    (∀ st db', fail_job db now jid msg 3 = .ok (st, db') →
      db'.events.length = db.events.length + 1) ∧
    (0 ≤ j.attempts → j.run_at ≤ now → j.run_at ≤ backoffRunAt now j.attempts) ∧
    (∀ a a' : Int, a < a' → backoffRunAt now a < backoffRunAt now a') := by
  refine ⟨?_, ?_, ?_, ?_, ?_⟩
  · intro h3
    simp [fail_job, hfind, insertEvent, Except.map, h3]
  · intro h3
    simp [fail_job, hfind, insertEvent, Except.map, not_le.mpr h3]
  · intro st db' h
    by_cases h3 : 3 ≤ j.attempts
    · simp [fail_job, hfind, insertEvent, Except.map, h3] at h
      simp [← h.2]
    · simp [fail_job, hfind, insertEvent, Except.map, h3] at h
      simp [← h.2]
  · intro h0 hle
    unfold backoffRunAt
    nlinarith
  · intro a a' h
    unfold backoffRunAt
    omega

def dbC4 : DB :=
  { jobs := [{ exJobProcessing with attempts := 3 }], images := [exImage], events := [],
    notifications := [], nextJobId := 2 }

theorem fail_job_branches_witness :
    fail_job dbC4 5 1 "e" 3 =
      .ok ("failed",
        { dbC4 with
            jobs := updJobsWhere 1 (jobFailUpd "e") dbC4.jobs,
            images := imagesFailUpd (some ({ exJobProcessing with attempts := 3 } : Job).image_id) dbC4.images,
            events := dbC4.events ++
              [⟨({ exJobProcessing with attempts := 3 } : Job).image_id, "job_failed",
                failEventData 1 (some ({ exJobProcessing with attempts := 3 } : Job).attempts) "e"⟩] }) :=
  (fail_job_branches dbC4 5 1 "e" { exJobProcessing with attempts := 3 } (by decide)).1 (by decide)

/-! ## C5: complete_job -/

def dbC5 : DB :=
  { jobs := [exJobProcessing], images := [exImage], events := [], notifications := [],
    nextJobId := 2 }

/-- The store after a first `complete_job(1, NULL)` call on `dbC5`. -/
def dbC5done : DB :=
  ((complete_job dbC5 1 none).toOption.getD (false, dbC5)).2

/-- **C5.** Evaluating `complete_job` at the failing input: with a non-NULL
result path on an existing item it raises the ambiguous-column error (42702)
instead of succeeding, so the claimed first-call success never happens; with a
NULL path it returns true, and a second call on the still-existing item
returns true again rather than the claimed false. -/
theorem complete_job_bug :
    complete_job dbC5 1 (some "processed/h1.jpg") = .error (.ambiguousColumn "processed_path") ∧
    (complete_job dbC5 1 none).map Prod.fst = .ok true ∧
    (complete_job dbC5done 1 none).map Prod.fst = .ok true :=
  ⟨rfl, rfl, rfl⟩

/-! ## Helper lemmas for the enqueue endpoint -/

/-- The store produced by a successful fresh enqueue (no existing dedupe key):
the inserted job, the image status moved to `queued`, the audit event, and the
trigger notification. -/
def enqueuedDB (db : DB) (now : Int) (imageId : Nat) (pipeline : String) (image : Image) : DB :=
  let r := insertJob db now imageId pipeline (some (image.sha256 ++ ":" ++ pipeline))
    image.processing_options
  { r.2 with
      images := r.2.images.map (fun i =>
        if i.id == imageId then { i with status := ImageStatus.queued } else i),
      events := r.2.events ++ [⟨imageId, "queued", enqueueEventData r.1 pipeline⟩] }

theorem find?_map_updWhere (l : List Image) (t : Nat) (f : Image → Image)
    (hf : ∀ i, (f i).id = i.id) :
    (l.map (fun i => if i.id == t then f i else i)).find? (fun i => i.id == t) =
      (l.find? (fun i => i.id == t)).map f := by
  induction l with
  | nil => rfl
  | cons i l ih =>
    cases h : i.id == t with
    | true =>
      have hm : (if i.id == t then f i else i) = f i := by simp [h]
      have hfm : ((f i).id == t) = true := by rw [hf]; exact h
      rw [List.map_cons, hm, List.find?_cons, List.find?_cons, hfm, h]
      rfl
    | false =>
      have hm : (if i.id == t then f i else i) = i := by simp [h]
      rw [List.map_cons, hm, List.find?_cons, List.find?_cons, h]
      exact ih

theorem processImage_dup (db : DB) (now : Int) (imageId : Nat) (pipeline : String)
    (image : Image) (job : Job)
    (himg : db.images.find? (fun i => i.id == imageId) = some image)
    (hst : image.status = ImageStatus.uploaded ∨ image.status = ImageStatus.failed)
    (hjob : db.jobs.find? (fun j => j.dedupe_key == some (image.sha256 ++ ":" ++ pipeline)) =
      some job) :
    processImage db now imageId pipeline = .ok ({ job_id := job.id, duplicate := true }, db) := by
  rcases hst with h | h <;> simp [processImage, himg, h, hjob]

theorem processImage_fresh (db : DB) (now : Int) (imageId : Nat) (pipeline : String)
    (image : Image)
    (himg : db.images.find? (fun i => i.id == imageId) = some image)
    (hst : image.status = ImageStatus.uploaded ∨ image.status = ImageStatus.failed)
    (hnone : db.jobs.find? (fun j => j.dedupe_key == some (image.sha256 ++ ":" ++ pipeline)) =
      none) :
    processImage db now imageId pipeline =
      .ok ({ job_id := db.nextJobId, duplicate := false }, enqueuedDB db now imageId pipeline image) := by
  rcases hst with h | h <;> simp [processImage, himg, h, hnone, enqueuedDB, insertJob]

theorem processImage_after_fresh (db : DB) (now : Int) (imageId : Nat) (pipeline : String)
    (image : Image)
    (himg : db.images.find? (fun i => i.id == imageId) = some image) :
    ∀ now2 pipeline2,
      processImage (enqueuedDB db now imageId pipeline image) now2 imageId pipeline2 =
        .error (.conflict "Already processing") := by
  intro now2 pipeline2
  have hfind :
      (enqueuedDB db now imageId pipeline image).images.find? (fun i => i.id == imageId) =
        some { image with status := ImageStatus.queued } := by
    have hlem := find?_map_updWhere db.images imageId
      (fun i => { i with status := ImageStatus.queued }) (fun i => rfl)
    simp only [enqueuedDB, insertJob]
    rw [hlem, himg]
    rfl
  simp [processImage, hfind]

/-! ## C6: enqueue dedupe idempotence -/

def dbC6 : DB := initDB [exImage]

/-- The store after the first successful enqueue on `dbC6`. -/
def dbC6b : DB :=
  ((processImage dbC6 0 7 "deface_boxes").toOption.getD ({ job_id := 0, duplicate := false }, dbC6)).2

/-- **C6 counterexample.** Calling Enqueue twice with the same dedupe key does
not return the same work item id both times: the first call succeeds (job id
1), but the second call is rejected with 409 "Already processing" by the image
status guard, which runs before the dedupe-key lookup, because the first call
moved the image status to `queued`. -/
theorem enqueue_twice_conflicts :
    (processImage dbC6 0 7 "deface_boxes").map Prod.fst =
      .ok { job_id := 1, duplicate := false } ∧
    processImage dbC6b 0 7 "deface_boxes" = .error (.conflict "Already processing") :=
  ⟨rfl, rfl⟩

/-- **C6 amended.** The dedupe key creates at most one row, and a call that
reaches the dedupe lookup (image status `uploaded` or `failed`) returns the
existing item id with a duplicate flag without touching the store; but an
immediate second call after a successful enqueue is rejected with a conflict
error (the image status guard runs before the dedupe lookup and the first call
set the status to `queued`), rather than returning the id with a duplicate
flag. -/
theorem enqueue_dedupe_amended (db : DB) (now : Int) (imageId : Nat) (pipeline : String)
    (image : Image)
    (himg : db.images.find? (fun i => i.id == imageId) = some image)
    (hst : image.status = ImageStatus.uploaded ∨ image.status = ImageStatus.failed) :
    (∀ job, db.jobs.find? (fun j => j.dedupe_key == some (image.sha256 ++ ":" ++ pipeline)) =
        some job →
      processImage db now imageId pipeline = .ok ({ job_id := job.id, duplicate := true }, db)) ∧
    (db.jobs.find? (fun j => j.dedupe_key == some (image.sha256 ++ ":" ++ pipeline)) = none →
      processImage db now imageId pipeline =
        .ok ({ job_id := db.nextJobId, duplicate := false },
          enqueuedDB db now imageId pipeline image) ∧
      (enqueuedDB db now imageId pipeline image).jobs.length = db.jobs.length + 1 ∧
      (∀ now2, processImage (enqueuedDB db now imageId pipeline image) now2 imageId pipeline =
        .error (.conflict "Already processing"))) := by
  refine ⟨fun job hjob => processImage_dup db now imageId pipeline image job himg hst hjob,
    fun hnone => ⟨processImage_fresh db now imageId pipeline image himg hst hnone, ?_,
      fun now2 => processImage_after_fresh db now imageId pipeline image himg now2 pipeline⟩⟩
  simp [enqueuedDB, insertJob]

theorem enqueue_dedupe_amended_witness :
    (∀ job, dbC6.jobs.find? (fun j => j.dedupe_key == some (exImage.sha256 ++ ":" ++ "p1")) =
        some job →
      processImage dbC6 0 7 "p1" = .ok ({ job_id := job.id, duplicate := true }, dbC6)) ∧
    (dbC6.jobs.find? (fun j => j.dedupe_key == some (exImage.sha256 ++ ":" ++ "p1")) = none →
      processImage dbC6 0 7 "p1" =
        .ok ({ job_id := dbC6.nextJobId, duplicate := false }, enqueuedDB dbC6 0 7 "p1" exImage) ∧
      (enqueuedDB dbC6 0 7 "p1" exImage).jobs.length = dbC6.jobs.length + 1 ∧
      (∀ now2, processImage (enqueuedDB dbC6 0 7 "p1" exImage) now2 7 "p1" =
        .error (.conflict "Already processing"))) :=
  enqueue_dedupe_amended dbC6 0 7 "p1" exImage (by decide) (by decide)

/-! ## C7: notifications on the jobs channel -/

def dbC7 : DB :=
  { jobs := [exJobProcessing], images := [exImage], events := [], notifications := [],
    nextJobId := 2 }

/-- **C7 counterexample.** A Fail-retry transition publishes nothing: the
`jobs_notify_queued` trigger is AFTER INSERT only, and `fail_job`'s retry
branch is an UPDATE, so after the retry the notification list is still empty. -/
theorem fail_retry_publishes_nothing :
    (fail_job dbC7 0 1 "boom" 3).map Prod.fst = .ok "retry" ∧
    (fail_job dbC7 0 1 "boom" 3).map (fun r => r.2.notifications) = .ok [] :=
  ⟨rfl, rfl⟩

theorem fail_job_notifications (db : DB) (now : Int) (jid : Nat) (msg : String) (m : Int)
    (st : String) (db' : DB) (h : fail_job db now jid msg m = .ok (st, db')) :
    db'.notifications = db.notifications := by
  cases hrow : db.jobs.find? (fun j => j.id == jid) with
  | none =>
    simp [fail_job, hrow, insertEvent, Except.map] at h
  | some j =>
    by_cases h3 : j.attempts ≥ m
    · simp [fail_job, hrow, insertEvent, Except.map, h3] at h
      simp [← h.2]
    · simp [fail_job, hrow, insertEvent, Except.map, h3] at h
      simp [← h.2]

/-- **C7 amended.** A notification on the single jobs channel is published by
every successful fresh Enqueue (the AFTER INSERT trigger fires for the new
`queued` row), but the Fail-retry transition publishes nothing — the trigger
does not fire on UPDATE, so retried items are only picked up by polling. -/
theorem notify_enqueue_not_retry (db : DB) (now : Int) (imageId : Nat) (pipeline : String)
    (image : Image)
    (himg : db.images.find? (fun i => i.id == imageId) = some image)
    (hst : image.status = ImageStatus.uploaded ∨ image.status = ImageStatus.failed)
    (hnone : db.jobs.find? (fun j => j.dedupe_key == some (image.sha256 ++ ":" ++ pipeline)) =
      none) :
    processImage db now imageId pipeline =
      .ok ({ job_id := db.nextJobId, duplicate := false },
        enqueuedDB db now imageId pipeline image) ∧
    (enqueuedDB db now imageId pipeline image).notifications =
      db.notifications ++ [(db.nextJobId, imageId, pipeline)] ∧
    (∀ jid msg st db', fail_job db now jid msg 3 = .ok (st, db') →
      db'.notifications = db.notifications) := by
  refine ⟨processImage_fresh db now imageId pipeline image himg hst hnone, ?_,
    fun jid msg st db' h => fail_job_notifications db now jid msg 3 st db' h⟩
  simp [enqueuedDB, insertJob]

theorem notify_enqueue_not_retry_witness :
    processImage dbC6 0 7 "p1" =
      .ok ({ job_id := dbC6.nextJobId, duplicate := false }, enqueuedDB dbC6 0 7 "p1" exImage) ∧
    (enqueuedDB dbC6 0 7 "p1" exImage).notifications =
      dbC6.notifications ++ [(dbC6.nextJobId, 7, "p1")] ∧
    (∀ jid msg st db', fail_job dbC6 0 jid msg 3 = .ok (st, db') →
      db'.notifications = dbC6.notifications) :=
  notify_enqueue_not_retry dbC6 0 7 "p1" exImage (by decide) (by decide) (by decide)

/-! ## C2: claim_jobs functional behaviour -/

/-- Modelled from the claim's words, for comparison with the code: the claimed
selection order "by `run_at` then id (ties broken by creation order)". -/
def SpecSortedRunAtThenId (l : List Job) : Prop :=
  l.Pairwise (fun a b => a.run_at < b.run_at ∨ (a.run_at = b.run_at ∧ a.id ≤ b.id))

instance (l : List Job) : Decidable (SpecSortedRunAtThenId l) := by
  unfold SpecSortedRunAtThenId; infer_instance

def jA : Job := { exJobQueued with id := 1, dedupe_key := some "k1" }

def jB : Job := { exJobQueued with id := 2, dedupe_key := some "k2" }

def dbC2 : DB :=
  { jobs := [jA, jB], images := [exImage], events := [], notifications := [], nextJobId := 3 }

/-- **C2 counterexample.** With two queued jobs of equal `run_at` (ids 1 and
2), `ORDER BY jobs.run_at` alone permits the selection `[jB, jA]` — id 2
before id 1 — so the selection is not "ordered by `run_at` then id": the SQL
has no id tie-break column. -/
theorem claim_selection_tie_not_id_ordered :
    IsClaimSelection 0 2 dbC2.jobs [jB, jA] ∧ ¬ SpecSortedRunAtThenId [jB, jA] :=
  ⟨⟨[jB, jA], by decide, by decide, rfl⟩, by decide⟩

/-- **C2 amended.** Any PostgreSQL-permitted outcome of `claim_jobs` selects
only `queued` rows with `run_at <= now`, at most `batch_size` of them, in
`run_at` order (tie order among equal `run_at` unspecified); every selected
row is updated to `processing` with `claimed_by = worker_id`,
`claimed_at = now` and `attempts` incremented, unselected rows are unchanged,
the returned rows carry the post-update attempt counts, and when no row
qualifies the selection is empty and the store unchanged (no error). -/
theorem claim_jobs_amended (now : Int) (w : String) (b : Nat) (db : DB) (sel : List Job)
    (hsel : IsClaimSelection now b db.jobs sel) :
    sel.length ≤ b ∧
    (∀ j ∈ sel, j ∈ db.jobs ∧ j.status = JobStatus.queued ∧ j.run_at ≤ now) ∧
    SortedRunAt sel ∧
    claimReturns sel w now = sel.map (fun j => ⟨j.id, j.image_id, j.kind, j.attempts + 1⟩) ∧
    (∀ j ∈ db.jobs, ((sel.map Job.id).contains j.id = false) →
      j ∈ (applyClaim sel w now db).jobs) ∧
    (∀ j ∈ sel, claimUpdate w now j ∈ (applyClaim sel w now db).jobs ∧
      (claimUpdate w now j).status = JobStatus.processing ∧
      (claimUpdate w now j).claimed_by = some w ∧
      (claimUpdate w now j).claimed_at = some now ∧
      (claimUpdate w now j).attempts = j.attempts + 1) ∧
    (db.jobs.filter (jobEligible now) = [] → sel = [] ∧ applyClaim sel w now db = db) := by
  obtain ⟨ord, hperm, hsort, hout⟩ := hsel
  subst hout
  have hmem : ∀ j ∈ ord.take b, j ∈ db.jobs ∧ jobEligible now j = true := by
    intro j hj
    have := hperm.mem_iff.mp (List.mem_of_mem_take hj)
    exact List.mem_filter.mp this
  refine ⟨?_, ?_, ?_, rfl, ?_, ?_, ?_⟩
  · rw [List.length_take]; exact min_le_left ..
  · intro j hj
    obtain ⟨h1, h2⟩ := hmem j hj
    simp only [jobEligible, Bool.and_eq_true, decide_eq_true_eq] at h2
    exact ⟨h1, h2.1, h2.2⟩
  · exact hsort.sublist (List.take_sublist b ord)
  · intro j hj hcont
    refine List.mem_map.mpr ⟨j, hj, ?_⟩
    show (if ((List.take b ord).map Job.id).contains j.id = true then claimUpdate w now j else j) = j
    rw [hcont]
    rfl
  · intro j hj
    have hdb := (hmem j hj).1
    have hcont : ((ord.take b).map Job.id).contains j.id = true :=
      List.elem_eq_true_of_mem (List.mem_map_of_mem Job.id hj)
    refine ⟨List.mem_map.mpr ⟨j, hdb, ?_⟩, rfl, rfl, rfl, rfl⟩
    show (if ((List.take b ord).map Job.id).contains j.id = true then claimUpdate w now j else j) =
      claimUpdate w now j
    rw [hcont]
    rfl
  · intro hempty
    have hnil : ord = [] := List.Perm.eq_nil (hempty ▸ hperm)
    subst hnil
    refine ⟨by simp, ?_⟩
    show { db with jobs := db.jobs.map _ } = db
    have : db.jobs.map (fun j =>
        if ((List.take b ([] : List Job)).map Job.id).contains j.id then claimUpdate w now j
        else j) = db.jobs := by
      simp
    rw [this]

theorem claim_jobs_amended_witness :
    claimUpdate "w1" 0 jA ∈ (applyClaim [jA] "w1" 0 dbC2).jobs ∧
    (claimUpdate "w1" 0 jA).status = JobStatus.processing ∧
    (claimUpdate "w1" 0 jA).claimed_by = some "w1" ∧
    (claimUpdate "w1" 0 jA).claimed_at = some 0 ∧
    (claimUpdate "w1" 0 jA).attempts = jA.attempts + 1 :=
  (claim_jobs_amended 0 "w1" 1 dbC2 [jA]
    ⟨[jA, jB], by decide, by decide, rfl⟩).2.2.2.2.2.1 jA (by decide)

/-! ## C8: capability signer helper lemmas -/

theorem string_eq_of_data (s t : String) (h : s.data = t.data) : s = t := by
  cases s; cases t; exact congrArg String.mk h

theorem splitFirstColon : ∀ (a a' b b' : List Char), ':' ∉ a → ':' ∉ a' →
    a ++ ':' :: b = a' ++ ':' :: b' → a = a' ∧ b = b' := by
  intro a
  induction a with
  | nil =>
    intro a' b b' _ hn' h
    cases a' with
    | nil =>
      simp only [List.nil_append, List.cons.injEq] at h
      exact ⟨rfl, h.2⟩
    | cons c t =>
      simp only [List.nil_append, List.cons_append, List.cons.injEq] at h
      exact absurd (List.mem_cons.mpr (Or.inl h.1)) hn'
  | cons c t ih =>
    intro a' b b' hn hn' h
    cases a' with
    | nil =>
      simp only [List.nil_append, List.cons_append, List.cons.injEq] at h
      exact absurd (List.mem_cons.mpr (Or.inl h.1.symm)) hn
    | cons c' t' =>
      simp only [List.cons_append, List.cons.injEq] at h
      have hrec := ih t' b b' (fun hm => hn (List.mem_cons.mpr (Or.inr hm)))
        (fun hm => hn' (List.mem_cons.mpr (Or.inr hm))) h.2
      exact ⟨by rw [h.1, hrec.1], hrec.2⟩

theorem splitLastColon (p p' e e' : List Char) (he : ':' ∉ e) (he' : ':' ∉ e')
    (h : p ++ ':' :: e = p' ++ ':' :: e') : p = p' ∧ e = e' := by
  have h' : e.reverse ++ ':' :: p.reverse = e'.reverse ++ ':' :: p'.reverse := by
    have hr := congrArg List.reverse h
    simpa [List.reverse_append] using hr
  have hs := splitFirstColon e.reverse e'.reverse p.reverse p'.reverse
    (fun hm => he (List.mem_reverse.mp hm)) (fun hm => he' (List.mem_reverse.mp hm)) h'
  exact ⟨List.reverse_injective hs.2, List.reverse_injective hs.1⟩

theorem hmacInput_data (m p : String) (e : Int) :
    (hmacInput m p e).data = m.data ++ ':' :: (p.data ++ ':' :: (toString e).data) := by
  have hc : (":" : String).data = [':'] := rfl
  simp [hmacInput, String.data_append, hc]

theorem hmacInput_inj_method (m m' p p' : String) (e : Int)
    (hm : colonFree m) (hm' : colonFree m')
    (h : hmacInput m p e = hmacInput m' p' e) : m = m' := by
  have hd := congrArg String.data h
  rw [hmacInput_data, hmacInput_data] at hd
  exact string_eq_of_data m m' (splitFirstColon m.data m'.data _ _ hm hm' hd).1

theorem hmacInput_inj_path (m p p' : String) (e : Int)
    (he : colonFree (toString e))
    (h : hmacInput m p e = hmacInput m p' e) : p = p' := by
  have hd := congrArg String.data h
  rw [hmacInput_data, hmacInput_data] at hd
  have h2 : p.data ++ ':' :: (toString e).data = p'.data ++ ':' :: (toString e).data :=
    (List.cons.injEq .. ▸ List.append_cancel_left hd : _ ∧ _).2
  exact string_eq_of_data p p' (splitLastColon p.data p'.data _ _ he he h2).1

/-- **C8.** A capability verifies exactly for the issued tuple: the token
minted by `POST /sign` for `(method, path)` is accepted as long as `now` is
not past the expiry; any request after the expiry is denied regardless of its
contents; and, assuming the HMAC digest is collision-free for this secret, a
request with a different (colon-free) method, a different path, or an altered
signature is denied. -/
theorem verify_capability (hmac : String → String → String) (secret method path : String)
    (now0 ttl now : Int) (sig : String) (exp : Int)
    (hinj : ∀ x y, hmac secret x = hmac secret y → x = y)
    (hiss : signEndpoint hmac secret method path now0 ttl = ⟨sig, exp⟩) :
    (now ≤ exp → verifyHmac hmac secret method path sig exp now = true) ∧
    (∀ m2 p2 sig2, exp < now → verifyHmac hmac secret m2 p2 sig2 exp now = false) ∧
    (∀ m2, colonFree method → colonFree m2 → m2 ≠ method →
      verifyHmac hmac secret m2 path sig exp now = false) ∧
    (∀ p2, colonFree (toString exp) → p2 ≠ path →
      verifyHmac hmac secret method p2 sig exp now = false) ∧
    (∀ sig2, sig2 ≠ sig → verifyHmac hmac secret method path sig2 exp now = false) := by
  have hexp : exp = now0 + ttl * 1000 := by
    have := congrArg SignResult.expHeader hiss
    simpa [signEndpoint] using this.symm
  have hsig : sig = hmac secret (hmacInput method path exp) := by
    have hpr := congrArg SignResult.sigHeader hiss
    simp only [signEndpoint] at hpr
    rw [← hexp] at hpr
    exact hpr.symm
  refine ⟨?_, ?_, ?_, ?_, ?_⟩
  · intro hle
    simp [verifyHmac, not_lt.mpr hle, hsig]
  · intro m2 p2 sig2 hlt
    simp [verifyHmac, hlt]
  · intro m2 hcm hcm2 hne
    by_cases hnow : now > exp
    · simp [verifyHmac, hnow]
    · simp only [verifyHmac, hnow, if_false]
      refine beq_eq_false_iff_ne.mpr (fun heq => hne ?_)
      exact hmacInput_inj_method m2 method path path exp hcm2 hcm (hinj _ _ (heq.symm.trans hsig))
  · intro p2 hce hne
    by_cases hnow : now > exp
    · simp [verifyHmac, hnow]
    · simp only [verifyHmac, hnow, if_false]
      refine beq_eq_false_iff_ne.mpr (fun heq => hne ?_)
      exact hmacInput_inj_path method p2 path exp hce (hinj _ _ (heq.symm.trans hsig))
  · intro sig2 hne
    by_cases hnow : now > exp
    · simp [verifyHmac, hnow]
    · simp only [verifyHmac, hnow, if_false]
      exact beq_eq_false_iff_ne.mpr (fun heq => hne (heq.trans hsig.symm))

theorem verify_capability_witness :
    ((0 : Int) ≤ 300000 →
      verifyHmac (fun _ m => m) "s" "PUT" "/originals/x"
        (hmacInput "PUT" "/originals/x" 300000) 300000 0 = true) ∧
    (∀ m2 p2 sig2, (300000 : Int) < 300001 →
      verifyHmac (fun _ m => m) "s" m2 p2 sig2 300000 300001 = false) ∧
    (∀ m2, colonFree "PUT" → colonFree m2 → m2 ≠ "PUT" →
      verifyHmac (fun _ m => m) "s" m2 "/originals/x"
        (hmacInput "PUT" "/originals/x" 300000) 300000 0 = false) ∧
    (∀ p2, colonFree (toString (300000 : Int)) → p2 ≠ "/originals/x" →
      verifyHmac (fun _ m => m) "s" "PUT" p2
        (hmacInput "PUT" "/originals/x" 300000) 300000 0 = false) ∧
    (∀ sig2, sig2 ≠ hmacInput "PUT" "/originals/x" 300000 →
      verifyHmac (fun _ m => m) "s" "PUT" "/originals/x" sig2 300000 0 = false) := by
  have h := verify_capability (fun _ m => m) "s" "PUT" "/originals/x" 0 300 0
    (hmacInput "PUT" "/originals/x" 300000) 300000 (fun x y hxy => hxy) rfl
  have h2 := verify_capability (fun _ m => m) "s" "PUT" "/originals/x" 0 300 300001
    (hmacInput "PUT" "/originals/x" 300000) 300000 (fun x y hxy => hxy) rfl
  exact ⟨h.1, h2.2.1, h.2.2.1, h.2.2.2.1, h.2.2.2.2⟩

/-! ## C9: atomic file store lemmas -/

/-- Which final path an operation can affect. -/
def opTouches (op : FsOp) (q : String) : Prop :=
  match op with
  | .mkdirp _ => False
  | .truncate p => p = q
  | .append p _ => p = q
  | .rename src dst => src = q ∨ dst = q

theorem fsGet_fsDel_ne (fs : FS) (p q : String) (h : q ≠ p) :
    fsGet (fsDel fs p) q = fsGet fs q := by
  induction fs with
  | nil => rfl
  | cons e fs ih =>
    cases hep : e.1 == p with
    | true =>
      have hepp : e.1 = p := eq_of_beq hep
      have hq : (e.1 == q) = false :=
        beq_eq_false_iff_ne.mpr (fun hqq => h (hqq.symm.trans hepp))
      have hb : (e.1 != p) = false := by simp [bne, hep]
      simp only [fsDel, fsGet, List.filter_cons, hb, Bool.false_eq_true, if_false,
        List.find?_cons, hq]
      exact ih
    | false =>
      have hb : (e.1 != p) = true := by simp [bne, hep]
      simp only [fsDel, fsGet, List.filter_cons, hb, if_true, List.find?_cons]
      cases hq : e.1 == q with
      | true => rfl
      | false => exact ih

theorem fsGet_fsSet_self (fs : FS) (p : String) (v : List Nat) :
    fsGet (fsSet fs p v) p = some v := by
  simp [fsGet, fsSet, List.find?_cons]

theorem fsGet_fsSet_ne (fs : FS) (p q : String) (v : List Nat) (h : q ≠ p) :
    fsGet (fsSet fs p v) q = fsGet fs q := by
  have hq : (((p, v) : String × List Nat).1 == q) = false :=
    beq_eq_false_iff_ne.mpr (fun hpq => h hpq.symm)
  show fsGet ((p, v) :: fs.filter (fun e => e.1 != p)) q = fsGet fs q
  simp only [fsGet, List.find?_cons, hq]
  exact fsGet_fsDel_ne fs p q h

theorem applyOp_untouched (fs : FS) (op : FsOp) (q : String) (h : ¬ opTouches op q) :
    fsGet (applyOp fs op) q = fsGet fs q := by
  cases op with
  | mkdirp d => rfl
  | truncate p => exact fsGet_fsSet_ne fs p q [] (fun hq => h (by simpa [opTouches] using hq.symm))
  | append p b =>
    exact fsGet_fsSet_ne fs p q _ (fun hq => h (by simpa [opTouches] using hq.symm))
  | rename src dst =>
    simp only [applyOp]
    cases hsrc : fsGet fs src with
    | none => rfl
    | some v =>
      have h1 : q ≠ dst := fun hq => h (Or.inr hq.symm)
      have h2 : q ≠ src := fun hq => h (Or.inl hq.symm)
      rw [fsGet_fsSet_ne _ _ _ _ h1, fsGet_fsDel_ne _ _ _ h2]

theorem applyOps_untouched (ops : List FsOp) (q : String) :
    ∀ fs, (∀ op ∈ ops, ¬ opTouches op q) → fsGet (applyOps fs ops) q = fsGet fs q := by
  induction ops with
  | nil => intro fs _; rfl
  | cons op ops ih =>
    intro fs h
    show fsGet (applyOps (applyOp fs op) ops) q = fsGet fs q
    rw [ih (applyOp fs op) (fun o ho => h o (List.mem_cons.mpr (Or.inr ho)))]
    exact applyOp_untouched fs op q (h op (List.mem_cons.mpr (Or.inl rfl)))

theorem applyOps_writes (t : String) (l : List Nat) :
    ∀ (fs : FS) (pre : List Nat), fsGet fs t = some pre →
      fsGet (applyOps fs (l.map (FsOp.append t))) t = some (pre ++ l) := by
  induction l with
  | nil => intro fs pre h; simpa using h
  | cons b l ih =>
    intro fs pre h
    show fsGet (applyOps (applyOp fs (FsOp.append t b)) (l.map (FsOp.append t))) t = _
    have hstep : fsGet (applyOp fs (FsOp.append t b)) t = some (pre ++ [b]) := by
      simp [applyOp, h, fsGet_fsSet_self]
    have := ih (applyOp fs (FsOp.append t b)) (pre ++ [b]) hstep
    simpa [List.append_assoc] using this

/-- The write phase of a PUT handler: everything before the final rename. -/
def putPhaseW (fullPath : String) (body : List Nat) : List FsOp :=
  FsOp.mkdirp (dirname fullPath) :: FsOp.truncate (fullPath ++ ".tmp") ::
    body.map (FsOp.append (fullPath ++ ".tmp"))

theorem putOps_split (fullPath : String) (body : List Nat) :
    putOps fullPath body =
      putPhaseW fullPath body ++ [FsOp.rename (fullPath ++ ".tmp") fullPath] := by
  simp [putOps, putPhaseW]

theorem tmp_ne (s : String) : s ++ ".tmp" ≠ s := by
  intro h
  have hlen := congrArg String.length h
  rw [String.length_append] at hlen
  have h4 : (".tmp" : String).length = 4 := rfl
  omega

theorem putOps_final (fullPath : String) (body : List Nat) (fs : FS) :
    fsGet (applyOps fs (putOps fullPath body)) fullPath = some body := by
  rw [putOps_split, applyOps, List.foldl_append]
  show fsGet (applyOps (applyOps fs (putPhaseW fullPath body)) _) fullPath = some body
  have hwr : fsGet (applyOps fs (putPhaseW fullPath body)) (fullPath ++ ".tmp") = some body := by
    show fsGet (applyOps (applyOp (applyOp fs _) _) (body.map (FsOp.append (fullPath ++ ".tmp"))))
      (fullPath ++ ".tmp") = some body
    have h0 : fsGet (applyOp (applyOp fs (FsOp.mkdirp (dirname fullPath)))
        (FsOp.truncate (fullPath ++ ".tmp"))) (fullPath ++ ".tmp") = some [] := by
      simp [applyOp, fsGet_fsSet_self]
    simpa using applyOps_writes (fullPath ++ ".tmp") body _ [] h0
  show fsGet (applyOp (applyOps fs (putPhaseW fullPath body))
    (FsOp.rename (fullPath ++ ".tmp") fullPath)) fullPath = some body
  simp [applyOp, hwr, fsGet_fsSet_self]

theorem putOps_take (fullPath : String) (body : List Nat) (fs : FS) (k : Nat) :
    fsGet (applyOps fs ((putOps fullPath body).take k)) fullPath = fsGet fs fullPath ∨
    fsGet (applyOps fs ((putOps fullPath body).take k)) fullPath = some body := by
  by_cases hk : k ≤ (putPhaseW fullPath body).length
  · left
    rw [putOps_split, List.take_append_eq_append_take, Nat.sub_eq_zero_of_le hk,
      List.take_zero, List.append_nil]
    apply applyOps_untouched
    intro op hop
    have hopw : op ∈ putPhaseW fullPath body := List.mem_of_mem_take hop
    simp only [putPhaseW, List.mem_cons, List.mem_map] at hopw
    rcases hopw with rfl | rfl | ⟨b, _, rfl⟩
    · simp [opTouches]
    · simp only [opTouches]
      exact tmp_ne fullPath
    · simp only [opTouches]
      exact tmp_ne fullPath
  · right
    push_neg at hk
    have htake : ([FsOp.rename (fullPath ++ ".tmp") fullPath]).take
        (k - (putPhaseW fullPath body).length) = [FsOp.rename (fullPath ++ ".tmp") fullPath] := by
      apply List.take_of_length_le
      simp only [List.length_singleton]
      omega
    rw [putOps_split, List.take_append_eq_append_take,
      List.take_of_length_le (le_of_lt hk), htake, ← putOps_split]
    exact putOps_final fullPath body fs

theorem dirname_tmp (s : String) : dirname (s ++ ".tmp") = dirname s := by
  unfold dirname
  congr 1
  have hdata : (s ++ ".tmp").data = s.data ++ ['.', 't', 'm', 'p'] := by
    rw [String.data_append]
  rw [hdata, List.reverse_append]
  have hrev : (['.', 't', 'm', 'p'] : List Char).reverse = ['p', 'm', 't', '.'] := rfl
  rw [hrev, List.dropWhile_append]
  rfl

theorem atomicPutOk_all (fullPath : String) (body : List Nat) : AtomicPutOk fullPath body :=
  ⟨fun fs k => putOps_take fullPath body fs k, fun fs => putOps_final fullPath body fs,
    dirname_tmp fullPath⟩

/-- **C9.** Both PUT handlers (originals and processed) perform exactly the
atomic write discipline: mkdir of the parent, full write to the sibling
temporary path `fullPath ++ ".tmp"`, then a single atomic rename over the
final path; at every intermediate point (crash or concurrent read) the final
path holds either its old content or the complete new body, never a partial
write, and the completed trace leaves the full body at the final path. -/
theorem atomic_put_handlers (mediaRoot filepath : String) (body : List Nat) :
    putOriginals mediaRoot filepath body = putOps (mediaRoot ++ "/originals/" ++ filepath) body ∧
    putProcessed mediaRoot filepath body = putOps (mediaRoot ++ "/processed/" ++ filepath) body ∧
    AtomicPutOk (mediaRoot ++ "/originals/" ++ filepath) body ∧
    AtomicPutOk (mediaRoot ++ "/processed/" ++ filepath) body :=
  ⟨rfl, rfl, atomicPutOk_all _ body, atomicPutOk_all _ body⟩

/-! ## C3: claimant fields vs status -/

/-- The direction of the claimed invariant that the code does maintain. -/
def ClaimedWhenProcessing (db : DB) : Prop :=
  ∀ j ∈ db.jobs, j.status = JobStatus.processing → j.claimed_by.isSome ∧ j.claimed_at.isSome

/-- The job row inserted by a fresh enqueue (schema defaults filled in). -/
def freshJob (db : DB) (now : Int) (imageId : Nat) (pipeline : String) (image : Image) : Job :=
  { id := db.nextJobId, image_id := imageId, kind := pipeline, status := .queued,
    run_at := now, attempts := 0, claimed_by := none, claimed_at := none,
    dedupe_key := some (image.sha256 ++ ":" ++ pipeline), error_log := none,
    processing_options := image.processing_options }

theorem processImage_jobs (db : DB) (now : Int) (imageId : Nat) (pipeline : String)
    (r : EnqueueResult) (db' : DB) (h : processImage db now imageId pipeline = .ok (r, db')) :
    db'.jobs = db.jobs ∨
    ∃ nj : Job, db'.jobs = db.jobs ++ [nj] ∧ nj.status = JobStatus.queued ∧
      nj.claimed_by = none ∧ nj.claimed_at = none := by
  unfold processImage at h
  split at h
  next => cases h
  next image himg =>
    split at h
    next h1 => cases h
    next h1 =>
      split at h
      next h2 => cases h
      next h2 =>
        dsimp only at h
        split at h
        next job hjob =>
          simp only [Except.ok.injEq, Prod.mk.injEq] at h
          exact Or.inl (by rw [← h.2])
        next hjob =>
          simp only [insertJob, Except.ok.injEq, Prod.mk.injEq] at h
          refine Or.inr ⟨freshJob db now imageId pipeline image, ?_, rfl, rfl, rfl⟩
          rw [← h.2]
          rfl

theorem step_claimedWhenProcessing (db db' : DB) (h : Step db db')
    (hinv : ClaimedWhenProcessing db) : ClaimedWhenProcessing db' := by
  cases h with
  | enqueue now imageId pipeline r dbx heqx =>
    rcases processImage_jobs _ _ _ _ _ _ heqx with hsame | ⟨nj, hjobs, hst, _, _⟩
    · intro j hj hp
      exact hinv j (hsame ▸ hj) hp
    · intro j hj hp
      rw [hjobs] at hj
      rcases List.mem_append.mp hj with hm | hm
      · exact hinv j hm hp
      · have hje : j = nj := by simpa using hm
        subst hje
        exact absurd (hst.symm.trans hp) (by decide)
  | claim now w b sel hsel =>
    intro j hj hp
    have hj2 : j ∈ (applyClaim sel w now db).jobs := hj
    simp only [applyClaim] at hj2
    rcases List.mem_map.mp hj2 with ⟨j0, hj0, rfl⟩
    cases hc : (sel.map Job.id).contains j0.id with
    | true => simp [hc, claimUpdate]
    | false =>
      simp only [hc, Bool.false_eq_true, if_false] at hp ⊢
      exact hinv j0 hj0 hp
  | complete jid p ok db2 heq =>
    cases hrow : db.jobs.find? (fun j => j.id == jid) with
    | none =>
      simp only [complete_job, hrow, Except.ok.injEq, Prod.mk.injEq] at heq
      intro j hj hp
      rw [← heq.2] at hj
      exact hinv j hj hp
    | some job =>
      cases p with
      | some s => simp [complete_job, hrow] at heq
      | none =>
        simp only [complete_job, hrow, insertEvent, Except.map, Except.ok.injEq,
          Prod.mk.injEq] at heq
        intro j hj hp
        rw [← heq.2] at hj
        have hj2 : j ∈ db.jobs.map (fun x => if x.id == jid then { x with status := JobStatus.done } else x) := hj
        rcases List.mem_map.mp hj2 with ⟨j0, hj0, rfl⟩
        cases hc : j0.id == jid with
        | true => simp [hc] at hp
        | false =>
          simp only [hc, Bool.false_eq_true, if_false] at hp ⊢
          exact hinv j0 hj0 hp
  | fail now jid msg m st db2 heq =>
    cases hrow : db.jobs.find? (fun j => j.id == jid) with
    | none => simp [fail_job, hrow, insertEvent, Except.map] at heq
    | some job =>
      by_cases h3 : job.attempts ≥ m
      · simp only [fail_job, hrow, Option.map_some', Option.getD_some, decide_eq_true_eq,
          if_pos h3, insertEvent, Except.map, Except.ok.injEq, Prod.mk.injEq] at heq
        intro j hj hp
        rw [← heq.2] at hj
        have hj2 : j ∈ updJobsWhere jid (jobFailUpd msg) db.jobs := hj
        simp only [updJobsWhere] at hj2
        rcases List.mem_map.mp hj2 with ⟨j0, hj0, rfl⟩
        cases hc : j0.id == jid with
        | true => simp [hc, jobFailUpd] at hp
        | false =>
          simp only [hc, Bool.false_eq_true, if_false] at hp ⊢
          exact hinv j0 hj0 hp
      · simp only [fail_job, hrow, Option.map_some', Option.getD_some, decide_eq_true_eq,
          if_neg h3, insertEvent, Except.map, Except.ok.injEq, Prod.mk.injEq] at heq
        intro j hj hp
        rw [← heq.2] at hj
        have hj2 : j ∈ updJobsWhere jid (jobRetryUpd now job.attempts msg) db.jobs := hj
        simp only [updJobsWhere] at hj2
        rcases List.mem_map.mp hj2 with ⟨j0, hj0, rfl⟩
        cases hc : j0.id == jid with
        | true => simp [hc, jobRetryUpd] at hp
        | false =>
          simp only [hc, Bool.false_eq_true, if_false] at hp ⊢
          exact hinv j0 hj0 hp

theorem reach_claimedWhenProcessing (images : List Image) (db : DB) (h : Reach images db) :
    ClaimedWhenProcessing db := by
  unfold Reach at h
  induction h with
  | refl => intro j hj _; simp [initDB] at hj
  | tail _ hstep ih => exact step_claimedWhenProcessing _ _ hstep ih

/-- The store after enqueueing the example image (job id 1 queued). -/
def dbC3s1 : DB :=
  ((processImage (initDB [exImage]) 0 7 "deface_boxes").toOption.getD
    ({ job_id := 0, duplicate := false }, initDB [exImage])).2

/-- The store after enqueue, claim by w1, and complete with a NULL path. -/
def dbC3final : DB :=
  ((complete_job (applyClaim [exJobQueued] "w1" 0 dbC3s1) 1 none).toOption.getD
    (false, initDB [exImage])).2

/-- **C3 counterexample.** A reachable state (enqueue, claim, complete)
whose work item has status `done` while `claimed_by` and `claimed_at` are
still non-null: `complete_job` does not clear the claimant fields, so the
"non-null iff processing" equivalence fails (and the terminal branch of
`fail_job` likewise leaves them set). -/
theorem done_job_retains_claimant :
    Reach [exImage] dbC3final ∧
    dbC3final.jobs =
      [{ exJobQueued with
          status := JobStatus.done, attempts := 1,
          claimed_by := some "w1", claimed_at := some 0 }] := by
  constructor
  · refine Relation.ReflTransGen.tail (Relation.ReflTransGen.tail
      (Relation.ReflTransGen.single
        (Step.enqueue (initDB [exImage]) 0 7 "deface_boxes" { job_id := 1, duplicate := false }
          dbC3s1 rfl))
      (Step.claim dbC3s1 0 "w1" 1 [exJobQueued] ⟨[exJobQueued], by decide, by decide, rfl⟩))
      (Step.complete (applyClaim [exJobQueued] "w1" 0 dbC3s1) 1 none true dbC3final rfl)
  · decide

/-- **C3 amended.** In every reachable state the claimant fields are non-null
whenever status is `processing` (they are set exactly by the claim), and the
retry branch of Fail clears them; but the converse of the claimed equivalence
fails: items moved to `done` or terminally `failed` retain the last claimant
(see the counterexample). -/
theorem claimed_iff_processing_amended (images : List Image) (db : DB)
    (hreach : Reach images db) :
    ClaimedWhenProcessing db ∧
    (∀ (now a : Int) (msg : String) (j : Job),
      (jobRetryUpd now a msg j).claimed_by = none ∧ (jobRetryUpd now a msg j).claimed_at = none) :=
  ⟨reach_claimedWhenProcessing images db hreach, fun _ _ _ _ => ⟨rfl, rfl⟩⟩

theorem claimed_iff_processing_amended_witness :
    ClaimedWhenProcessing dbC3s1 ∧
    (∀ (now a : Int) (msg : String) (j : Job),
      (jobRetryUpd now a msg j).claimed_by = none ∧ (jobRetryUpd now a msg j).claimed_at = none) :=
  claimed_iff_processing_amended [exImage] dbC3s1
    (Relation.ReflTransGen.single
      (Step.enqueue (initDB [exImage]) 0 7 "deface_boxes" { job_id := 1, duplicate := false }
        dbC3s1 rfl))

/-! ## C1: mutual exclusion of concurrent claims -/

theorem mem_eq_of_nodup_ids : ∀ (l : List Job), ((l.map Job.id).Nodup) →
    ∀ a b : Job, a ∈ l → b ∈ l → a.id = b.id → a = b := by
  intro l
  induction l with
  | nil => intro _ a b ha _ _; cases ha
  | cons c t ih =>
    intro hnd a b ha hb hid
    rw [List.map_cons, List.nodup_cons] at hnd
    rcases List.mem_cons.mp ha with rfl | ha2
    · rcases List.mem_cons.mp hb with rfl | hb2
      · rfl
      · exact absurd (by rw [hid]; exact List.mem_map_of_mem Job.id hb2) hnd.1
    · rcases List.mem_cons.mp hb with rfl | hb2
      · exact absurd (by rw [← hid]; exact List.mem_map_of_mem Job.id ha2) hnd.1
      · exact ih hnd.2 a b ha2 hb2 hid

/-- The inductive invariant of the concurrent claim model: job ids stay
distinct, ids outside the table are never returned, and every job is either
still queued and returned by no claim call, or processing and returned by
exactly one. -/
def CInv (s : CState) : Prop :=
  (s.db.jobs.map Job.id).Nodup ∧
  (∀ i : Nat, i ∉ s.db.jobs.map Job.id → claimCount s.results i = 0) ∧
  (∀ j ∈ s.db.jobs,
    (j.status = JobStatus.queued ∧ claimCount s.results j.id = 0) ∨
    (j.status = JobStatus.processing ∧ claimCount s.results j.id = 1))

theorem applyClaim_ids (sel : List Job) (w : String) (now : Int) (db : DB) :
    (applyClaim sel w now db).jobs.map Job.id = db.jobs.map Job.id := by
  simp only [applyClaim, List.map_map]
  apply List.map_congr_left
  intro j _
  cases hc : (sel.map Job.id).contains j.id with
  | true =>
    show Job.id (if (sel.map Job.id).contains j.id = true then claimUpdate w now j else j) = j.id
    rw [if_pos hc]
    rfl
  | false =>
    show Job.id (if (sel.map Job.id).contains j.id = true then claimUpdate w now j else j) = j.id
    rw [if_neg (ne_true_of_eq_false hc)]

theorem claimCount_append (rs : List (String × List Nat)) (w : String) (ids : List Nat)
    (i : Nat) : claimCount (rs ++ [(w, ids)]) i = claimCount rs i + ids.count i := by
  simp [claimCount, List.count_append]

theorem cstep_ids (now : Int) (s s2 : CState) (h : CStep now s s2) :
    s2.db.jobs.map Job.id = s.db.jobs.map Job.id := by
  cases h with
  | exec w b sel hsel => exact applyClaim_ids sel w now s.db
  | commit w => rfl

theorem cstep_inv (now : Int) (s s2 : CState) (hstep : CStep now s s2) (hinv : CInv s) :
    CInv s2 := by
  obtain ⟨hnd, hout, hjobs⟩ := hinv
  cases hstep with
  | commit w => exact ⟨hnd, hout, hjobs⟩
  | exec w b sel hsel =>
    obtain ⟨ord, hperm, hsort, hselq⟩ := hsel
    have hselmem : ∀ j ∈ sel, j ∈ s.db.jobs ∧ j.status = JobStatus.queued := by
      intro j hj
      rw [hselq] at hj
      have h1 := hperm.mem_iff.mp (List.mem_of_mem_take hj)
      have h2 := List.mem_filter.mp h1
      have h3 := List.mem_filter.mp h2.1
      refine ⟨h3.1, ?_⟩
      have h4 := h2.2
      simp only [jobEligible, Bool.and_eq_true, decide_eq_true_eq] at h4
      exact h4.1
    have hids_nd : (sel.map Job.id).Nodup := by
      have hsub1 : List.Sublist sel ord := by rw [hselq]; exact List.take_sublist b ord
      have hsub2 : List.Sublist ((unlockedJobs s).filter (jobEligible now)) s.db.jobs :=
        (List.filter_sublist _).trans (List.filter_sublist _)
      have hordnd : (ord.map Job.id).Nodup :=
        ((hperm.map Job.id).nodup_iff).mpr (hnd.sublist (hsub2.map Job.id))
      exact hordnd.sublist (hsub1.map Job.id)
    refine ⟨?_, ?_, ?_⟩
    · show ((applyClaim sel w now s.db).jobs.map Job.id).Nodup
      rw [applyClaim_ids]
      exact hnd
    · intro i hi
      have hi2 : i ∉ (applyClaim sel w now s.db).jobs.map Job.id := hi
      rw [applyClaim_ids] at hi2
      have hni : i ∉ sel.map Job.id := by
        intro hmem
        rcases List.mem_map.mp hmem with ⟨j, hj, hji⟩
        exact hi2 (hji ▸ List.mem_map_of_mem Job.id (hselmem j hj).1)
      show claimCount (s.results ++ [(w, sel.map Job.id)]) i = 0
      rw [claimCount_append, hout i hi2, List.count_eq_zero.mpr hni]
    · intro j2 hj2
      have hj3 : j2 ∈ (applyClaim sel w now s.db).jobs := hj2
      simp only [applyClaim] at hj3
      rcases List.mem_map.mp hj3 with ⟨j0, hj0, rfl⟩
      cases hc : (sel.map Job.id).contains j0.id with
      | true =>
        have hmem : j0.id ∈ sel.map Job.id := List.mem_of_elem_eq_true hc
        rcases List.mem_map.mp hmem with ⟨js, hjs, hjsid⟩
        have hjseq : js = j0 :=
          mem_eq_of_nodup_ids s.db.jobs hnd js j0 (hselmem js hjs).1 hj0 hjsid
        have hj0sel : j0 ∈ sel := hjseq ▸ hjs
        have hq : j0.status = JobStatus.queued := (hselmem j0 hj0sel).2
        have hcount : claimCount s.results j0.id = 0 := by
          rcases hjobs j0 hj0 with h0 | h0
          · exact h0.2
          · exact absurd (hq.symm.trans h0.1) (by decide)
        right
        constructor
        · show (if True = True then claimUpdate w now j0 else j0).status = JobStatus.processing
          rfl
        · show claimCount (s.results ++ [(w, sel.map Job.id)]) j0.id = 1
          rw [claimCount_append, hcount, List.count_eq_one_of_mem hids_nd hmem]
      | false =>
        have hni : j0.id ∉ sel.map Job.id := by
          intro hmem
          have hc2 : List.elem j0.id (sel.map Job.id) = false := hc
          rw [List.elem_eq_true_of_mem hmem] at hc2
          cases hc2
        rcases hjobs j0 hj0 with h0 | h0
        · left
          constructor
          · show j0.status = JobStatus.queued
            exact h0.1
          · show claimCount (s.results ++ [(w, sel.map Job.id)]) j0.id = 0
            rw [claimCount_append, h0.2, List.count_eq_zero.mpr hni]
        · right
          constructor
          · show j0.status = JobStatus.processing
            exact h0.1
          · show claimCount (s.results ++ [(w, sel.map Job.id)]) j0.id = 1
            rw [claimCount_append, h0.2, List.count_eq_zero.mpr hni]

theorem creach_inv (now : Int) (s0 s : CState) (h : CReach now s0 s) (hinv : CInv s0) :
    CInv s := by
  unfold CReach at h
  induction h with
  | refl => exact hinv
  | tail h1 hstep ih => exact cstep_inv now _ _ hstep ih

theorem creach_ids (now : Int) (s0 s : CState) (h : CReach now s0 s) :
    s.db.jobs.map Job.id = s0.db.jobs.map Job.id := by
  unfold CReach at h
  induction h with
  | refl => rfl
  | tail h1 hstep ih => rw [cstep_ids now _ _ hstep, ih]

/-- **C1.** Mutual exclusion of concurrent claims: in any interleaving of
claim statements (each of which selects only rows not locked by another
uncommitted claim, locks them, and updates them to `processing` in the same
transaction before release) and commits, starting from a table of queued
items with distinct ids, no job id is returned by more than one claim call;
every `processing` job was returned by exactly one call; and once every job
is `processing`, every job of the initial table has been claimed exactly
once. -/
theorem claim_mutual_exclusion (now : Int) (db0 : DB) (s : CState)
    (hnodup : (db0.jobs.map Job.id).Nodup)
    (hq : ∀ j ∈ db0.jobs, j.status = JobStatus.queued)
    (hreach : CReach now ⟨db0, [], []⟩ s) :
    (∀ i : Nat, claimCount s.results i ≤ 1) ∧
    (∀ j ∈ s.db.jobs, j.status = JobStatus.processing → claimCount s.results j.id = 1) ∧
    ((∀ j ∈ s.db.jobs, j.status = JobStatus.processing) →
      ∀ j0 ∈ db0.jobs, claimCount s.results j0.id = 1) := by
  have hinv0 : CInv ⟨db0, [], []⟩ :=
    ⟨hnodup, fun i _ => rfl, fun j hj => Or.inl ⟨hq j hj, rfl⟩⟩
  obtain ⟨hnd, hout, hjobs⟩ := creach_inv now _ s hreach hinv0
  have hids := creach_ids now _ s hreach
  refine ⟨?_, ?_, ?_⟩
  · intro i
    by_cases hi : i ∈ s.db.jobs.map Job.id
    · rcases List.mem_map.mp hi with ⟨j, hj, rfl⟩
      rcases hjobs j hj with h0 | h0
      · rw [h0.2]
        exact Nat.zero_le 1
      · rw [h0.2]
    · rw [hout i hi]
      exact Nat.zero_le 1
  · intro j hj hp
    rcases hjobs j hj with h0 | h0
    · exact absurd (h0.1.symm.trans hp) (by decide)
    · exact h0.2
  · intro hall j0 hj0
    have hmem : j0.id ∈ s.db.jobs.map Job.id := by
      rw [hids]
      exact List.mem_map_of_mem Job.id hj0
    rcases List.mem_map.mp hmem with ⟨j, hj, hjid⟩
    rcases hjobs j hj with h0 | h0
    · exact absurd (h0.1.symm.trans (hall j hj)) (by decide)
    · rw [← hjid]
      exact h0.2

/-- The state after one claimer has executed a claim of both example jobs. -/
def sC1 : CState :=
  { db := applyClaim [jA, jB] "w1" 0 dbC2,
    locked := [] ++ [jA, jB].map (fun j => ("w1", j.id)),
    results := [] ++ [("w1", [jA, jB].map Job.id)] }

theorem claim_mutual_exclusion_witness :
    (∀ i : Nat, claimCount sC1.results i ≤ 1) ∧
    (∀ j ∈ sC1.db.jobs, j.status = JobStatus.processing → claimCount sC1.results j.id = 1) ∧
    ((∀ j ∈ sC1.db.jobs, j.status = JobStatus.processing) →
      ∀ j0 ∈ dbC2.jobs, claimCount sC1.results j0.id = 1) :=
  claim_mutual_exclusion 0 dbC2 sC1 (by decide) (by decide)
    (Relation.ReflTransGen.single (CStep.exec ⟨dbC2, [], []⟩ "w1" 2 [jA, jB]
      ⟨[jA, jB], by decide, by decide, rfl⟩))

example :
    claim_jobs 5 "w1" 1
      { jobs := [{ id := 1, image_id := 7, kind := "deface_boxes", status := .queued,
                   run_at := 0, attempts := 0, claimed_by := none, claimed_at := none,
                   dedupe_key := some "h:p", error_log := none, processing_options := "o" }],
        images := [], events := [], notifications := [], nextJobId := 2 } =
      ([⟨1, 7, "deface_boxes", 1⟩],
       { jobs := [{ id := 1, image_id := 7, kind := "deface_boxes", status := .processing,
                    run_at := 0, attempts := 1, claimed_by := some "w1", claimed_at := some 5,
                    dedupe_key := some "h:p", error_log := none, processing_options := "o" }],
         images := [], events := [], notifications := [], nextJobId := 2 }) := by
  decide
